import Mathlib

/-!
Shallow embedding of the filesystem-client repository.

The embedding covers three layers of the code base:

* the share-descriptor URI codec of `lib/charms/storage_client/v0/fs_interfaces.py`
  (`_UriData`, `_hostinfo`, `NfsInfo`, `CephfsInfo`), together with the pieces of
  Python's `urllib.parse` that the codec calls;
* the autofs control-file writer of `src/utils/manager.py`
  (`MountsManager.mount`, `MountsManager.umount`, `_mountpoint_to_autofs_id`),
  together with the pieces of `pathlib` they use, over a symlink-free filesystem;
* the reconciliation handler of `src/charm.py`
  (`FilesystemClientCharm._handle_event` and the `mounts` context manager).

Python runtime errors are made explicit: fallible code returns `Except PyErr`,
where `PyErr` also covers errors that CPython raises on its own (TypeError on
`unquote(None)`, IndexError on an out-of-range string index, NameError on an
undefined identifier), since the source hits all of these.
-/

/-- Python `str.find(c)` of a single character: index of the first occurrence. -/
def firstIdxOf (c : Char) : List Char → Option Nat
  | [] => none
  | x :: xs => if x = c then some 0 else (firstIdxOf c xs).map (· + 1)

/-- Digit run to a number; `none` unless the list is one or more decimal digits. -/
def digitsToNat : List Char → Option Nat
  | [] => none
  | ds =>
    if ds.all Char.isDigit then some (ds.foldl (fun a c => 10 * a + (c.toNat - 48)) 0)
    else none

/-- Python `int(s)` on text: optional surrounding spaces, optional sign, one or
more decimal digits. (Underscore digit grouping and non-ASCII digits are not
modelled; no input in this development uses them.) -/
def pyInt (cs : List Char) : Option Int :=
  let t := ((cs.dropWhile (· = ' ')).reverse.dropWhile (· = ' ')).reverse
  match t with
  | '+' :: ds => (digitsToNat ds).map Int.ofNat
  | '-' :: ds => (digitsToNat ds).map (fun n => -(n : Int))
  | ds => (digitsToNat ds).map Int.ofNat

/-- Result of the host-port parser `_hostinfo`.

`retNone` marks the fall-through at the end of the Python function body: the
port branch parses the port into a local variable but the function has no
`return hostname, port` statement, so Python returns `None`.
`indexError` marks the `hostname[pos]` access (fs_interfaces.py line 278),
which indexes the local `hostname` (instead of `host`) at a position that is
past its end whenever the input has characters after the hostname. -/
inductive HostRes where
  | ok (hostname : String) (port : Option Int)
  | parseError (msg : String)
  | indexError
  | retNone
  deriving DecidableEq, Repr

/-- `_hostinfo` (fs_interfaces.py lines 253-283), translated statement by
statement: empty-host check, bracket branch (`host.find(']')`, slice
`host[1:pos]`, `pos+1`), plain branch (`host.find(':')`, slice `host[:pos]`),
the `pos == len(host)` early return, the `hostname[pos] != ":"` test and the
`int(host[pos+1:])` conversion. -/
def _hostinfo (host : String) : HostRes :=
  let cs := host.toList
  let n := cs.length
  if n = 0 then .parseError "invalid empty host"
  else
    let parsed : Option (List Char × Nat) :=
      if cs.headD ' ' = '[' then
        match firstIdxOf ']' cs with
        | none => none
        | some p => some ((cs.drop 1).take (p - 1), p + 1)
      else
        let p := (firstIdxOf ':' cs).getD n
        some (cs.take p, p)
    match parsed with
    | none => .parseError "unclosed bracket for host"
    | some (hn, pos) =>
      if pos = n then .ok ⟨hn⟩ none
      else if hpos : pos < hn.length then
        if hn.get ⟨pos, hpos⟩ ≠ ':' then .parseError "expected `:` after IPv6 address"
        else
          match pyInt (cs.drop (pos + 1)) with
          | some _ => .retNone
          | none => .parseError "expected int after `:` in host"
      else .indexError

/-- Claim C2 (code-bug evaluation). The spec and the repository's own unit
tests (tests/unit/test_interfaces.py) state that the host-port parser returns
`("192.168.1.1", 6789)` on `"192.168.1.1:6789"` and `("2001:db8::1", 9876)` on
`"[2001:db8::1]:9876"`, and raises ParseError on a non-numeric port. In the
code, any input with characters after the hostname reaches `hostname[pos]`
with `pos ≥ len(hostname)` and raises IndexError instead (and even past that
point the function would return `None`, lacking a return statement). The
port-less forms and the unclosed-bracket ParseError do behave as specified. -/
theorem hostinfo_eval :
    _hostinfo "192.168.1.1" = .ok "192.168.1.1" none ∧
    _hostinfo "192.168.1.1:6789" = .indexError ∧
    _hostinfo "[2001:db8::1]" = .ok "2001:db8::1" none ∧
    _hostinfo "[2001:db8::1]:9876" = .indexError ∧
    _hostinfo "[2001:db8::1" = .parseError "unclosed bracket for host" ∧
    _hostinfo "192.168.1.1:abc" = .indexError := by
  decide

/-! ### Python `urllib.parse`, restricted to what the codec calls -/

/-- Explicit Python errors raised by the translated code. `fsError` is the
library's `FsInterfacesError`; `parseError` its subclass `ParseError`. -/
inductive PyErr where
  | typeError (msg : String)
  | attributeError (msg : String)
  | nameError (msg : String)
  | indexError (msg : String)
  | fsError (msg : String)
  | parseError (msg : String)
  deriving DecidableEq, Repr

deriving instance DecidableEq for Except

/-- ASCII lowercasing, as `str.lower()` does on the ASCII inputs in play. -/
def asciiLower (cs : List Char) : List Char := cs.map Char.toLower

/-- The characters CPython allows in a URL scheme after the first letter. -/
def isSchemeChar (c : Char) : Bool :=
  c.isAlphanum || c = '+' || c = '-' || c = '.'

/-- Hexadecimal digit value, or `none`. -/
def hexVal (c : Char) : Option Nat :=
  if c.isDigit then some (c.toNat - 48)
  else if 'a' ≤ c ∧ c ≤ 'f' then some (c.toNat - 87)
  else if 'A' ≤ c ∧ c ≤ 'F' then some (c.toNat - 55)
  else none

/-- `urllib.parse.unquote` on text: `%XX` hex pairs are decoded to the byte
value, anything else is kept (CPython keeps malformed escapes verbatim).
Multi-byte UTF-8 escape sequences are decoded byte by byte; every input used in
this development is ASCII, where this coincides with CPython. -/
def pyUnquote : List Char → List Char
  | [] => []
  | '%' :: h :: l :: rest =>
    match hexVal h, hexVal l with
    | some a, some b => Char.ofNat (16 * a + b) :: pyUnquote rest
    | _, _ => '%' :: pyUnquote (h :: l :: rest)
  | c :: rest => c :: pyUnquote rest

/-- Characters `urllib.parse.quote` never escapes. -/
def isUnreservedChar (c : Char) : Bool :=
  c.isAlphanum || c = '_' || c = '.' || c = '-' || c = '~'

/-- One uppercase hexadecimal digit. -/
def hexDigitUpper (n : Nat) : Char :=
  if n < 10 then Char.ofNat (48 + n) else Char.ofNat (55 + n)

/-- `%XX` escape of one character (ASCII model; every escaped input in this
development is a single-byte codepoint). -/
def percentEncode (c : Char) : List Char :=
  ['%', hexDigitUpper (c.toNat / 16), hexDigitUpper (c.toNat % 16)]

/-- `urllib.parse.quote(s)` with the default `safe='/'`. -/
def pyQuote (cs : List Char) : List Char :=
  (cs.map (fun c => if isUnreservedChar c || c = '/' then [c] else percentEncode c)).flatten

/-- `urllib.parse.quote_plus(s)` with `safe=''`: spaces become `+`. -/
def pyQuotePlus (cs : List Char) : List Char :=
  (cs.map (fun c =>
    if isUnreservedChar c then [c]
    else if c = ' ' then ['+'] else percentEncode c)).flatten

/-- The four components `urlparse(uri, allow_fragments=False)` hands to
`_UriData.from_uri` (fragments play no role without `#` handling). -/
structure SplitUrl where
  scheme : String
  netloc : String
  path : String
  query : String
  deriving DecidableEq, Repr

/-- `urllib.parse.urlsplit(url, allow_fragments=False)`: split off a scheme at
the first `:` when the prefix is a letter followed by scheme characters
(lowercased); a netloc after `//` up to the next `/`, `?` or `#`; then split
the query at the first `?`. (The bracketed-IPv6 netloc validation of CPython
3.12 is not modelled; no netloc in this development contains brackets.) -/
def urlsplitNF (url : String) : SplitUrl :=
  let cs := url.toList
  let schemeRest : List Char × List Char :=
    match firstIdxOf ':' cs with
    | some i =>
      let pre := cs.take i
      if 0 < i ∧ (pre.headD ' ').isAlpha ∧ pre.all isSchemeChar then
        (asciiLower pre, cs.drop (i + 1))
      else ([], cs)
    | none => ([], cs)
  let netlocRest : List Char × List Char :=
    if schemeRest.2.take 2 = ['/', '/'] then
      let after := schemeRest.2.drop 2
      let nl := after.takeWhile (fun c => ¬(c = '/' ∨ c = '?' ∨ c = '#'))
      (nl, after.drop nl.length)
    else ([], schemeRest.2)
  let pathQuery : List Char × List Char :=
    match firstIdxOf '?' netlocRest.2 with
    | some i => (netlocRest.2.take i, netlocRest.2.drop (i + 1))
    | none => (netlocRest.2, [])
  ⟨⟨schemeRest.1⟩, ⟨netlocRest.1⟩, ⟨pathQuery.1⟩, ⟨pathQuery.2⟩⟩

/-- Index of the last occurrence of a character, as `str.rpartition` uses it. -/
def lastIdxOf (c : Char) (cs : List Char) : Option Nat :=
  match firstIdxOf c cs.reverse with
  | none => none
  | some j => some (cs.length - 1 - j)

/-- The `username` property of a CPython split result: `None` when the netloc
has no `@`, otherwise the part before the last `@` up to the first `:`. -/
def urlUsername (netloc : List Char) : Option (List Char) :=
  match lastIdxOf '@' netloc with
  | none => none
  | some i => some ((netloc.take i).takeWhile (· ≠ ':'))

/-- The `hostname` property of a CPython split result: the host part of the
netloc (after the last `@`; inside brackets when a `[` is present, else up to
the first `:`), lowercased; `None` when that part is empty. -/
def urlHostname (netloc : List Char) : Option (List Char) :=
  let hostinfo := match lastIdxOf '@' netloc with
    | none => netloc
    | some i => netloc.drop (i + 1)
  let hn :=
    if hostinfo.contains '[' then
      ((hostinfo.dropWhile (· ≠ '[')).drop 1).takeWhile (· ≠ ']')
    else hostinfo.takeWhile (· ≠ ':')
  if hn = [] then none else some (asciiLower hn)

/-- Split a character list at every occurrence of `sep`, Python `str.split`
style: `splitAtChar ',' "" = [""]` and separators at the ends yield empty
pieces. -/
def splitAtChar (sep : Char) : List Char → List (List Char)
  | [] => [[]]
  | c :: rest =>
    if c = sep then [] :: splitAtChar sep rest
    else
      match splitAtChar sep rest with
      | [] => [[c]]
      | h :: tl => (c :: h) :: tl

/-- Append one `key=value` pair to the accumulating `parse_qs` dictionary,
preserving first-insertion order as CPython dicts do. -/
def addQsPair (k v : String) : List (String × List String) → List (String × List String)
  | [] => [(k, [v])]
  | (k', vs) :: rest =>
    if k' = k then (k', vs ++ [v]) :: rest else (k', vs) :: addQsPair k v rest

/-- `urllib.parse.parse_qs(qs, strict_parsing=True)` as in CPython 3.12: split
on `&`; a piece without `=` (including the empty piece an empty query yields)
raises ValueError; pairs with an empty value are dropped
(`keep_blank_values=False`); keys and values are `unquote_plus`-decoded. -/
def parseQs (qs : List Char) : Except Unit (List (String × List String)) :=
  (splitAtChar '&' qs).foldlM (fun acc piece =>
    match firstIdxOf '=' piece with
    | none => .error ()
    | some i =>
      let k := piece.take i
      let v := piece.drop (i + 1)
      if v = [] then .ok acc
      else .ok (addQsPair ⟨pyUnquote (k.map (fun c => if c = '+' then ' ' else c))⟩
                          ⟨pyUnquote (v.map (fun c => if c = '+' then ' ' else c))⟩ acc))
    []

/-- `urllib.parse.urlencode(d)`: `quote_plus(k)=quote_plus(v)` joined by `&`. -/
def urlencodeOpts (opts : List (String × String)) : String :=
  String.intercalate "&" (opts.map (fun kv =>
    (⟨pyQuotePlus kv.1.toList⟩ : String) ++ "=" ++ (⟨pyQuotePlus kv.2.toList⟩ : String)))

/-- `urllib.parse.urlunsplit` with no fragment. -/
def urlunsplitNF (scheme netloc path query : String) : String :=
  let url1 : String :=
    if netloc ≠ "" ∨ path.toList.take 2 = ['/', '/'] then
      if path ≠ "" ∧ path.toList.headD ' ' ≠ '/' then "//" ++ netloc ++ "/" ++ path
      else "//" ++ netloc ++ path
    else path
  let url2 := if scheme ≠ "" then scheme ++ ":" ++ url1 else url1
  if query ≠ "" then url2 ++ "?" ++ query else url2

/-! ### `_UriData` (fs_interfaces.py lines 184-250) -/

/-- The raw parsed form a relation endpoint URI is decoded into
(`_UriData`; the spec calls it `RawUri`): scheme, ordered host list, user,
path and an options mapping. -/
structure UriData where
  scheme : String
  hosts : List String
  user : String
  path : String
  options : List (String × String)
  deriving DecidableEq, Repr

/-- `_UriData.__init__` (lines 205-216): rejects an empty scheme and an empty
host list with `FsInterfacesError`, defaults an empty path to `"/"`. -/
def uriDataInit (scheme : String) (hosts : List String) (user : String)
    (path : String) (options : List (String × String)) : Except PyErr UriData :=
  if scheme = "" then .error (.fsError "scheme cannot be empty")
  else if hosts.length = 0 then .error (.fsError "list of hosts cannot be empty")
  else .ok ⟨scheme, hosts, user, if path = "" then "/" else path, options⟩

/-- Python `str()` of a list of strings, as `_UriData.__init__` applies it to
the `list[str]` values `parse_qs` produces: `str(['a']) = "['a']"`.
(The `repr` quote-selection corner cases for values containing quotes are not
modelled; no input in this development contains quotes.) -/
def strOfStrList (vs : List String) : String :=
  let q := String.singleton (Char.ofNat 39)
  "[" ++ String.intercalate ", " (vs.map (fun v => q ++ v ++ q)) ++ "]"

/-- Python `str.split(',')` producing strings. -/
def splitCommaStr (s : String) : List String :=
  (splitAtChar ',' s.toList).map (fun l => (⟨l⟩ : String))

/-- The body of `_UriData.from_uri` (lines 218-243) applied to a URI string.

Two call-level remarks, both documented rather than modelled away:
the method is declared `@classmethod` but its signature is `from_uri(uri)`,
so any actual call `_UriData.from_uri(text)` binds `uri` to the class and
raises TypeError before this body runs; this definition gives the code the
benefit of the doubt and models the body with `uri` bound to the string.

The body itself: `uri.username` is `None` whenever the netloc has no `@`, and
`uri.hostname` is `None` whenever the host part is empty, so the
`unquote(...)` calls at lines 226-227 raise TypeError on such URIs. The
parenthesis check at line 229 sees the netloc only up to the first `:` (that
is how the CPython `hostname` property splits it), and the parentheses are
never stripped before `hostname.split(",")`. -/
def uriDataFromUri (uriStr : String) : Except PyErr UriData :=
  let u := urlsplitNF uriStr
  match urlUsername u.netloc.toList with
  | none => .error (.typeError "argument of type NoneType is not iterable")
  | some uname =>
    let user : String := ⟨pyUnquote uname⟩
    match urlHostname u.netloc.toList with
    | none => .error (.typeError "argument of type NoneType is not iterable")
    | some hn =>
      let hostname : String := ⟨pyUnquote hn⟩
      if hostname = "" ∨ hostname.toList.headD ' ' ≠ '(' ∨ hostname.toList.getLastD ' ' ≠ ')' then
        .error (.parseError "invalid list of hosts for endpoint")
      else
        match parseQs u.query.toList with
        | .error _ => .error (.parseError "invalid options for endpoint info")
        | .ok opts =>
          match uriDataInit u.scheme (splitCommaStr hostname) user u.path
              (opts.map (fun kv => (kv.1, strOfStrList kv.2))) with
          | .error (.fsError m) => .error (.parseError m)
          | .error e => .error e
          | .ok d => .ok d

/-- `_UriData.__str__` (lines 245-250). The netloc line reads
`netloc = f"{user}@" if user else "" + f"({self.hostname})"`, which Python
parses as `f"{user}@" if user else ("" + f"({self.hostname})")`: with a
non-empty user the netloc is just `user@` and the host list is dropped; with
an empty user it evaluates `self.hostname`, an attribute `_UriData` does not
have, and raises AttributeError. The local `hostname` variable computed at
line 247 is never used. -/
def uriDataStr (d : UriData) : Except PyErr String :=
  let user : String := ⟨pyQuote d.user.toList⟩
  if user ≠ "" then
    .ok (urlunsplitNF d.scheme (user ++ "@") d.path (urlencodeOpts d.options))
  else
    .error (.attributeError "_UriData object has no attribute hostname")

/-- `from_uri(to_uri(u))`, the round-trip of spec section 8. -/
def uriRoundTrip (d : UriData) : Except PyErr UriData :=
  match uriDataStr d with
  | .error e => .error e
  | .ok s => uriDataFromUri s

/-- The claim's validity condition on a `RawUri`: non-empty scheme, non-empty
host list, every host accepted by the host-port grammar. -/
def validRawUri (d : UriData) : Bool :=
  d.scheme ≠ "" && !d.hosts.isEmpty &&
    d.hosts.all (fun h => match _hostinfo h with | .ok _ _ => true | _ => false)

/-- A valid `RawUri` with an empty user. -/
def rtNoUser : UriData := ⟨"nfs", ["192.168.1.1"], "", "/export", []⟩

/-- A valid `RawUri` with a non-empty user. -/
def rtWithUser : UriData := ⟨"ceph", ["192.168.1.1"], "fsuser", "/export", []⟩

/-- Claim C1 (code-bug evaluation). The spec states
`from_uri(to_uri(u)) == u` for every valid `RawUri` `u`. On the valid value
`rtNoUser` (empty user), `to_uri` itself raises AttributeError: the
conditional-expression precedence bug in `__str__` makes the else-branch
evaluate `self.hostname`, an attribute that does not exist. On the valid value
`rtWithUser` (non-empty user), `to_uri` returns `"ceph://fsuser@/export"` --
the host list is dropped from the netloc -- and re-parsing that string raises
TypeError (`unquote` of a `None` hostname). In neither case does the
round-trip return the original value. -/
theorem uridata_roundtrip_breaks :
    (validRawUri rtNoUser = true ∧
      uriRoundTrip rtNoUser = .error (.attributeError "_UriData object has no attribute hostname")) ∧
    (validRawUri rtWithUser = true ∧
      uriDataStr rtWithUser = .ok "ceph://fsuser@/export" ∧
      uriRoundTrip rtWithUser = .error (.typeError "argument of type NoneType is not iterable")) := by
  decide

/-! ### Share-info variants (fs_interfaces.py lines 318-470) -/

/-- The fields of `NfsInfo`. -/
structure NfsData where
  hostname : String
  port : Option Int
  path : String
  deriving DecidableEq, Repr

/-- `NfsInfo.from_uri` (lines 331-352): parse with `_UriData.from_uri`, check
the scheme is `nfs`, warn (without failing) about user, extra hosts or
options, then unpack `_hostinfo(info.hosts[0])` into hostname and port.
Since `_hostinfo` returns `None` on every port-bearing host (it has no return
statement on that path), the tuple unpacking at line 351 would raise TypeError
on those; the result propagates the IndexError and ParseError cases as well. -/
def nfsFromUri (uriStr : String) : Except PyErr NfsData :=
  match uriDataFromUri uriStr with
  | .error e => .error e
  | .ok info =>
    if info.scheme ≠ "nfs" then
      .error (.parseError "could not parse EndpointInfo with incompatible scheme into NfsInfo")
    else
      match _hostinfo (info.hosts.headD "") with
      | .ok h p => .ok ⟨h, p, info.path⟩
      | .parseError m => .error (.parseError m)
      | .indexError => .error (.indexError "string index out of range")
      | .retNone => .error (.typeError "cannot unpack non-iterable NoneType object")

/-- Claim C3 (code-bug evaluation). The spec states that decoding
`nfs://(192.168.1.254:65535)/srv` succeeds with hostname `192.168.1.254`,
port `65535` and path `/srv` (the module docstring and the integration test
use exactly this descriptor). In the code the decode raises TypeError before
any field is produced: the netloc `(192.168.1.254:65535)` has no `@`, so
`uri.username` is `None` and `unquote(uri.username)` at line 226 raises.
(Further slips sit behind that one: `uri.hostname` is only `(192.168.1.254`
-- CPython cuts the netloc at the first `:` -- so the parenthesis check of
line 229 would reject it; and the `@classmethod` binding slip makes any real
call raise TypeError even earlier.) -/
theorem nfs_from_uri_eval :
    nfsFromUri "nfs://(192.168.1.254:65535)/srv" =
      .error (.typeError "argument of type NoneType is not iterable") := by
  decide

/-- The fields of `CephfsInfo`. -/
structure CephData where
  fsid : String
  name : String
  path : String
  monitorHosts : List String
  user : String
  key : String
  deriving DecidableEq, Repr

/-- Dictionary lookup followed by the walrus truthiness test
`if not (x := d.get(k))`: an absent key and an empty value both fail it. -/
def optGetTruthy (opts : List (String × String)) (k : String) : Option String :=
  match opts.find? (fun kv => kv.1 = k) with
  | none => none
  | some kv => if kv.2 = "" then none else some kv.2

/-- Python `s.split(":", 1)` unpacked into exactly two names: `none` models
the ValueError when no separator is present. -/
def splitOnceColon (s : String) : Option (String × String) :=
  match firstIdxOf ':' s.toList with
  | none => none
  | some i => some (⟨s.toList.take i⟩, ⟨s.toList.drop (i + 1)⟩)

/-- `CephfsInfo.from_uri` (lines 391-436). Its first statement,
`info = _parse_uri(uri)` at line 393, references a name the module never
defines (`_UriData.from_uri` is the only parser present), so every call
raises NameError before any field check runs. -/
def cephfsFromUri (_uriStr : String) (_getSecret : String → Option String) :
    Except PyErr CephData :=
  .error (.nameError "name _parse_uri is not defined")

/-- Lines 395-436 of `CephfsInfo.from_uri`, the part after the undefined
`_parse_uri` call, applied to an already-parsed `_UriData`: scheme check,
non-empty user check, then the `name`, `fsid` and `auth` option checks in
that order, each raising its own ParseError, then the `secret:`/`plain:`
auth-kind dispatch (`model.get_secret(id=auth)` is modelled by `getSecret`,
keyed -- as in the source -- by the whole `auth` string). The error messages
reproduce the source, including its unbalanced backtick and the `CephsInfo`
typo in the auth message. -/
def cephfsFromUriData (info : UriData) (getSecret : String → Option String) :
    Except PyErr CephData :=
  if info.scheme ≠ "ceph" then
    .error (.parseError "could not parse EndpointInfo with incompatible scheme into CephfsInfo")
  else if info.user = "" then
    .error (.parseError "missing user in uri for `CephfsInfo")
  else
    match optGetTruthy info.options "name" with
    | none => .error (.parseError "missing name in uri for `CephfsInfo`")
    | some nm =>
      match optGetTruthy info.options "fsid" with
      | none => .error (.parseError "missing fsid in uri for `CephfsInfo`")
      | some fsid =>
        match optGetTruthy info.options "auth" with
        | none => .error (.parseError "missing auth info in uri for `CephsInfo`")
        | some auth =>
          match splitOnceColon auth with
          | none => .error (.parseError "Could not get the kind of auth info")
          | some kd =>
            if kd.1 = "secret" then
              match getSecret auth with
              | some key => .ok ⟨fsid, nm, info.path, info.hosts, info.user, key⟩
              | none => .error (.fsError "secret not found")
            else if kd.1 = "plain" then
              .ok ⟨fsid, nm, info.path, info.hosts, info.user, kd.2⟩
            else .error (.parseError "Invalid kind for auth info")

/-- A ceph URI that the raw codec body accepts and whose options carry `name`
and `auth` but no `fsid`. -/
def cephUriNoFsid : String := "ceph://fsuser@(192.168.1.1)/export?name=fs&auth=plain:QWERTY"

/-- Claim C4 (code-bug evaluation). The spec states that a ceph URI whose
`fsid` option is missing is rejected with a ParseError naming `fsid` (and
likewise distinct ParseErrors for a missing user, `name` or `auth`). In the
code, `CephfsInfo.from_uri` raises NameError on every input: its first
statement calls `_parse_uri`, which the module never defines. The second
conjunct shows the intent the spec describes is exactly what the rest of the
method body does: routing the same URI through `_UriData.from_uri` and then
through lines 395-436 yields the ParseError naming `fsid`. -/
theorem cephfs_from_uri_eval :
    cephfsFromUri cephUriNoFsid (fun _ => none) =
      .error (.nameError "name _parse_uri is not defined") ∧
    (uriDataFromUri cephUriNoFsid).bind (fun info => cephfsFromUriData info (fun _ => none)) =
      .error (.parseError "missing fsid in uri for `CephfsInfo`") := by
  decide

/-! ### `pathlib` and the autofs control files (src/utils/manager.py) -/

/-- Join pieces with a separator character (what `"/".join` produces and what
`pathlib` renders between path parts). -/
def joinSep (sep : Char) : List (List Char) → List Char
  | [] => []
  | [p] => p
  | p :: ps => p ++ sep :: joinSep sep ps

/-- The stored parts of `pathlib.PurePosixPath` for an absolute path: pieces
between `/`, with empty pieces and `.` dropped and `..` kept. -/
def pathParts (cs : List Char) : List (List Char) :=
  (splitAtChar '/' cs).filter (fun p => decide (p ≠ []) && decide (p ≠ ['.']))

/-- `str(pathlib.Path(mp))` for an absolute `mp` (the leading-`//` corner case
of POSIX paths is not modelled; no mountpoint in this development starts with
`//`). -/
def strPath (cs : List Char) : List Char := '/' :: joinSep '/' (pathParts cs)

/-- `Path(mp).resolve()` parts for an absolute `mp` over a symlink-free
filesystem: `..` pops the previous part, as `os.path.realpath` does once no
symlinks intervene. -/
def resolveParts (cs : List Char) : List (List Char) :=
  (pathParts cs).foldl (fun acc p => if p = ['.', '.'] then acc.dropLast else acc ++ [p]) []

/-- `str(Path(mp).resolve())` under the same assumptions. -/
def resolvedPath (cs : List Char) : List Char := '/' :: joinSep '/' (resolveParts cs)

/-- `_mountpoint_to_autofs_id` (manager.py lines 232-239):
`str(Path(mountpoint).resolve()).lstrip("/").replace("/", "-")`. `lstrip`
drops every leading slash; the single-character `replace` is a character map. -/
def autofsId (mp : String) : String :=
  ⟨((resolvedPath mp.toList).dropWhile (· = '/')).map (fun c => if c = '/' then '-' else c)⟩

/-- One control-file write (path and full contents, as `write_text` does). -/
structure FileWrite where
  path : String
  content : String
  deriving DecidableEq, Repr

/-- The two control files `MountsManager.mount` writes (manager.py lines
176-183): the master stanza `/etc/auto.master.d/<id>.autofs` whose
content is a slash and a hyphen followed by the map path (the direct-map
marker), and the map file `/etc/auto.<id>` containing
`f"{target} -{','.join(options)} {endpoint}"` where `target` is
`pathlib.Path(mountpoint)` as given (not resolved). The surrounding mkdir and
the systemd reload are not file writes and are modelled in the reconciler
layer instead. -/
def mountFiles (endpoint : String) (opts : List String) (mountpoint : String) : List FileWrite :=
  let target : String := ⟨strPath mountpoint.toList⟩
  let id := autofsId mountpoint
  [⟨"/etc/auto.master.d/" ++ id ++ ".autofs", "/- /etc/auto." ++ id⟩,
   ⟨"/etc/auto." ++ id, target ++ " -" ++ String.intercalate "," opts ++ " " ++ endpoint⟩]

/-- The two control files `MountsManager.umount` deletes (manager.py lines
202-205), in deletion order. -/
def umountTargets (mountpoint : String) : List String :=
  let id := autofsId mountpoint
  ["/etc/auto." ++ id, "/etc/auto.master.d/" ++ id ++ ".autofs"]

theorem splitAtChar_no_sep (sep : Char) : ∀ p : List Char, sep ∉ p → splitAtChar sep p = [p] := by
  intro p
  induction p with
  | nil => intro _; rfl
  | cons c cs ih =>
    intro h
    have hc : ¬ c = sep := fun e => h (e ▸ List.mem_cons_self c cs)
    have := ih (fun hm => h (List.mem_cons_of_mem _ hm))
    simp [splitAtChar, hc, this]

theorem splitAtChar_append (sep : Char) (l : List Char) :
    ∀ p : List Char, sep ∉ p → splitAtChar sep (p ++ sep :: l) = p :: splitAtChar sep l := by
  intro p
  induction p with
  | nil => intro _; simp [splitAtChar]
  | cons c cs ih =>
    intro h
    have hc : ¬ c = sep := fun e => h (e ▸ List.mem_cons_self c cs)
    have := ih (fun hm => h (List.mem_cons_of_mem _ hm))
    simp [splitAtChar, hc, this]

theorem splitAtChar_joinSep (sep : Char) :
    ∀ ps : List (List Char), ps ≠ [] → (∀ p ∈ ps, sep ∉ p) →
      splitAtChar sep (joinSep sep ps) = ps := by
  intro ps
  induction ps with
  | nil => intro h; exact absurd rfl h
  | cons p rest ih =>
    intro _ hall
    cases rest with
    | nil => exact splitAtChar_no_sep sep p (hall p (List.mem_cons_self _ _))
    | cons q qs =>
      have h1 : joinSep sep (p :: q :: qs) = p ++ sep :: joinSep sep (q :: qs) := rfl
      rw [h1, splitAtChar_append sep _ p (hall p (List.mem_cons_self _ _)),
        ih (by simp) (fun r hr => hall r (List.mem_cons_of_mem _ hr))]

theorem pathParts_clean (ps : List (List Char)) (h₁ : ps ≠ [])
    (h₂ : ∀ p ∈ ps, p ≠ [] ∧ '/' ∉ p ∧ p ≠ ['.'] ∧ p ≠ ['.', '.']) :
    pathParts ('/' :: joinSep '/' ps) = ps := by
  unfold pathParts
  have h3 : splitAtChar '/' ('/' :: joinSep '/' ps) = [] :: ps := by
    have : splitAtChar '/' ('/' :: joinSep '/' ps) = [] :: splitAtChar '/' (joinSep '/' ps) := by
      simp [splitAtChar]
    rw [this, splitAtChar_joinSep '/' ps h₁ (fun p hp => (h₂ p hp).2.1)]
  rw [h3]
  rw [List.filter_cons_of_neg]
  · apply List.filter_eq_self.mpr
    intro p hp
    simp [(h₂ p hp).1, (h₂ p hp).2.2.1]
  · simp

theorem foldl_resolve (ps : List (List Char)) (h : ∀ p ∈ ps, p ≠ ['.', '.']) :
    ∀ acc, ps.foldl (fun acc p => if p = ['.', '.'] then acc.dropLast else acc ++ [p]) acc
      = acc ++ ps := by
  induction ps with
  | nil => intro acc; simp
  | cons p rest ih =>
    intro acc
    have hp : ¬ p = ['.', '.'] := h p (List.mem_cons_self _ _)
    simp only [List.foldl_cons, if_neg hp]
    rw [ih (fun r hr => h r (List.mem_cons_of_mem _ hr))]
    simp

/-- Claim C9. For a mountpoint that is already an absolute, resolved, clean
path (`/`-joined non-empty components, none `.` or `..`), `mount` writes
exactly two control files: the master stanza at
`/etc/auto.master.d/<id>.autofs` whose content is the direct-map marker
(slash, hyphen) followed by a space and `/etc/auto.<id>`, and the
map file `/etc/auto.<id>` with content `<mountpoint> -<opt1,opt2,...>
<endpoint>`, where `<id>` is the mountpoint with the leading `/` stripped and
every remaining `/` replaced by `-`. -/
theorem mount_writes_exact_autofs_files (ep : String) (opts : List String)
    (ps : List (List Char)) (h₁ : ps ≠ [])
    (h₂ : ∀ p ∈ ps, p ≠ [] ∧ '/' ∉ p ∧ p ≠ ['.'] ∧ p ≠ ['.', '.']) :
    mountFiles ep opts ⟨'/' :: joinSep '/' ps⟩ =
      (let id : String := ⟨(('/' :: joinSep '/' ps).dropWhile (· = '/')).map
          (fun c => if c = '/' then '-' else c)⟩
       [⟨"/etc/auto.master.d/" ++ id ++ ".autofs", "/- /etc/auto." ++ id⟩,
        ⟨"/etc/auto." ++ id,
         (⟨'/' :: joinSep '/' ps⟩ : String) ++ " -" ++ String.intercalate "," opts ++ " " ++ ep⟩]) := by
  have hparts : pathParts ('/' :: joinSep '/' ps) = ps := pathParts_clean ps h₁ h₂
  have hres : resolveParts ('/' :: joinSep '/' ps) = ps := by
    unfold resolveParts
    rw [hparts, foldl_resolve ps (fun p hp => (h₂ p hp).2.2.2) []]
    simp
  simp only [mountFiles, autofsId, strPath, resolvedPath, String.toList]
  rw [hparts, hres]

/-- Witness for C9 at the mountpoint `/mnt/data`. -/
theorem mount_writes_exact_autofs_files_witness :
    (([['m','n','t'], ['d','a','t','a']] : List (List Char)) ≠ [] ∧
      (∀ p ∈ ([['m','n','t'], ['d','a','t','a']] : List (List Char)),
        p ≠ [] ∧ '/' ∉ p ∧ p ≠ ['.'] ∧ p ≠ ['.', '.'])) ∧
    mountFiles "192.168.1.254:/srv" ["exec", "suid", "nodev", "ro", "port=65535"]
        ⟨'/' :: joinSep '/' [['m','n','t'], ['d','a','t','a']]⟩ =
      (let id : String := ⟨(('/' :: joinSep '/' [['m','n','t'], ['d','a','t','a']]).dropWhile (· = '/')).map
          (fun c => if c = '/' then '-' else c)⟩
       [⟨"/etc/auto.master.d/" ++ id ++ ".autofs", "/- /etc/auto." ++ id⟩,
        ⟨"/etc/auto." ++ id,
         (⟨'/' :: joinSep '/' [['m','n','t'], ['d','a','t','a']]⟩ : String) ++ " -" ++
           String.intercalate "," ["exec", "suid", "nodev", "ro", "port=65535"] ++ " " ++
           "192.168.1.254:/srv"⟩]) :=
  ⟨⟨by decide, by decide⟩,
    mount_writes_exact_autofs_files "192.168.1.254:/srv"
      ["exec", "suid", "nodev", "ro", "port=65535"]
      [['m','n','t'], ['d','a','t','a']] (by decide) (by decide)⟩

/-- Claim C10. The mountpoint-to-autofs-id mapping is not injective: the
distinct absolute resolved mountpoints `/a/b` and `/a-b` share the autofs id
`a-b`, so `mount` writes its two control files at identical paths for both
and `umount` deletes the same two files for both. -/
theorem autofs_id_not_injective :
    ("/a/b" : String) ≠ "/a-b" ∧
    autofsId "/a/b" = "a-b" ∧ autofsId "/a-b" = "a-b" ∧
    (⟨resolvedPath "/a/b".toList⟩ : String) = "/a/b" ∧
    (⟨resolvedPath "/a-b".toList⟩ : String) = "/a-b" ∧
    umountTargets "/a/b" = umountTargets "/a-b" ∧
    (mountFiles "192.168.1.254:/srv" ["rw"] "/a/b").map FileWrite.path =
      (mountFiles "192.168.1.254:/srv" ["rw"] "/a-b").map FileWrite.path := by
  decide

/-! ### The reconciliation handler (src/charm.py)

`FilesystemClientCharm._handle_event` drives reconciliation. The charm
imports its interface library as `charms.filesystem_client.v0.interfaces`;
the repository ships the equivalent `FsRequires` in
`lib/charms/storage_client/v0/fs_interfaces.py`, whose `endpoints` property
(lines 565-573) parses every relation's endpoint URI with no per-relation
error handling, so a single parse failure propagates out of the property.
The per-share descriptor parse results are therefore inputs here, and
`endpoints` models the property's error propagation.

The model keeps what the handler manipulates: the validated `mountinfo`
config (one `MountOpts` per filesystem kind, booleans already defaulted as
lines 66-68 do), the persisted mounts table (a JSON object keyed by kind, so
an association list here), mount/umount effects through `MountsManager`
(whose failures raise out of the handler), and the `mounts()` context
manager, which persists the in-memory table exactly once, when and only when
the `with` body finishes without an exception (lines 126-133). Leadership
and the package-installation preamble are outside the claims and are not
modelled. -/

/-- One active share descriptor as the handler sees it: the variant's
`fs_type()` and the raw relation URI (`share.uri`). -/
structure Share where
  fsType : String
  uri : String
  deriving DecidableEq, Repr

/-- One entry of the validated `mountinfo` config. -/
structure MountOpts where
  mountpoint : String
  noexec : Bool
  nosuid : Bool
  nodev : Bool
  readOnly : Bool
  deriving DecidableEq, Repr

/-- One persisted mount record: the config entry of its kind plus the
`uri` key added at line 100. -/
structure MountRecord where
  mountpoint : String
  noexec : Bool
  nosuid : Bool
  nodev : Bool
  readOnly : Bool
  uri : String
  deriving DecidableEq, Repr

/-- The validated `mountinfo` config, keyed by filesystem kind. -/
abbrev Cfg := List (String × MountOpts)

/-- The persisted mounts table, keyed by filesystem kind. -/
abbrev Table := List (String × MountRecord)

/-- `d.get(k)` on an association list. -/
def lookupKey {α : Type} : List (String × α) → String → Option α
  | [], _ => none
  | (k, v) :: rest, key => if k = key then some v else lookupKey rest key

/-- `d[k] = v` on an association list: overwrite in place, else append,
matching CPython dict insertion-order semantics. -/
def setKey {α : Type} : List (String × α) → String → α → List (String × α)
  | [], k, v => [(k, v)]
  | (k', v') :: rest, k, v =>
    if k' = k then (k, v) :: rest else (k', v') :: setKey rest k v

/-- One mount or umount effect performed through `MountsManager`. -/
inductive MountOp where
  | mount (s : Share) (mountpoint : String) (opts : List String)
  | umount (mountpoint : String)
  deriving DecidableEq, Repr

/-- Whether the OS-level effects succeed; a `false` answer models the
`Error` that `MountsManager.mount`/`umount` raise on a systemd failure. -/
structure Exec where
  umountOk : String → Bool
  mountOk : Share → String → List String → Bool

/-- The environment in which every mount and umount succeeds. -/
def noFail : Exec := ⟨fun _ => true, fun _ _ _ => true⟩

/-- `FsRequires.endpoints` (fs_interfaces.py lines 565-573): every relation's
URI is parsed in turn; the first failure propagates out of the property and
no share list is produced. -/
def endpoints : List (Except PyErr Share) → Except PyErr (List Share)
  | [] => .ok []
  | .error e :: _ => .error e
  | .ok s :: rest =>
    match endpoints rest with
    | .ok l => .ok (s :: l)
    | .error e => .error e

/-- The `Counter` conflict check of charm.py lines 77-83: the first kind (in
iteration order) occurring more than once, if any. -/
def firstDuplicate (l : List String) : Option String :=
  l.find? (fun s => decide (1 < l.count s))

/-- The stale-kind sweep (charm.py lines 86-90): for every tracked kind not
among the active ones, umount its recorded mountpoint and drop the record; a
failing umount raises, keeping the ops performed so far. -/
def staleLoop (e : Exec) (active : List String) : Table → Except (List MountOp) (List MountOp × Table)
  | [] => .ok ([], [])
  | (k, r) :: rest =>
    if k ∈ active then
      match staleLoop e active rest with
      | .ok (ops, t) => .ok (ops, (k, r) :: t)
      | .error ops => .error ops
    else if e.umountOk r.mountpoint then
      match staleLoop e active rest with
      | .ok (ops, t) => .ok (.umount r.mountpoint :: ops, t)
      | .error ops => .error (.umount r.mountpoint :: ops)
    else .error []

/-- The option list built at charm.py lines 104-108. -/
def mkOptsList (o : MountOpts) : List String :=
  [if o.noexec then "noexec" else "exec",
   if o.nosuid then "nosuid" else "suid",
   if o.nodev then "nodev" else "dev",
   if o.readOnly then "ro" else "rw"]

/-- The record stored into the mounts table at line 117: the config entry of
the share's kind plus its URI (line 100). -/
def mkRecord (o : MountOpts) (uri : String) : MountRecord :=
  ⟨o.mountpoint, o.noexec, o.nosuid, o.nodev, o.readOnly, uri⟩

/-- Result of the per-share loop: finished; stopped by the
missing-configuration early return of lines 94-98 (which exits the `with`
body normally); or aborted by a raised mount/umount error. -/
inductive LoopRes where
  | done (ops : List MountOp) (t : Table)
  | missingCfg (fs : String) (ops : List MountOp) (t : Table)
  | raised (ops : List MountOp)
  deriving DecidableEq, Repr

/-- Prepend already-performed ops to a loop result. -/
def consOps (ops : List MountOp) : LoopRes → LoopRes
  | .done o t => .done (ops ++ o) t
  | .missingCfg fs o t => .missingCfg fs (ops ++ o) t
  | .raised o => .raised (ops ++ o)

/-- The per-share loop (charm.py lines 92-117): for each active share, fetch
its kind's config (early return when absent), build the option list and the
record; when no record of that kind exists or the stored one differs, umount
the stale record (if any), mount fresh, and store the record; otherwise do
nothing for this share. -/
def mountLoop (e : Exec) (cfg : Cfg) : List Share → Table → LoopRes
  | [], t => .done [] t
  | s :: rest, t =>
    match lookupKey cfg s.fsType with
    | none => .missingCfg s.fsType [] t
    | some o =>
      let record := mkRecord o s.uri
      let opts := mkOptsList o
      match lookupKey t s.fsType with
      | some prev =>
        if prev = record then mountLoop e cfg rest t
        else if e.umountOk prev.mountpoint then
          if e.mountOk s o.mountpoint opts then
            consOps [.umount prev.mountpoint, .mount s o.mountpoint opts]
              (mountLoop e cfg rest (setKey t s.fsType record))
          else .raised [.umount prev.mountpoint]
        else .raised []
      | none =>
        if e.mountOk s o.mountpoint opts then
          consOps [.mount s o.mountpoint opts]
            (mountLoop e cfg rest (setKey t s.fsType record))
        else .raised []

/-- How one handler invocation ended. `raised` means an exception left
`_handle_event` (a descriptor ParseError out of `endpoints`, or a mount
error); the `blocked` outcomes are the early `return` statements that set a
blocked status. -/
inductive Outcome where
  | blockedConfig
  | blockedDuplicate (fs : String)
  | blockedMissing (fs : String)
  | active
  | raised
  deriving DecidableEq, Repr

/-- One handler invocation, observed from outside: how it ended, the
mount/umount effects it performed, every table the `mounts()` context
manager persisted (in order), and the table persisted after the invocation
(the previous one when nothing was persisted). -/
structure HandlerResult where
  outcome : Outcome
  ops : List MountOp
  persists : List Table
  persisted : Table
  deriving DecidableEq, Repr

/-- `FilesystemClientCharm._handle_event` (charm.py lines 55-119) on one
invocation: config parse/validation (`none` models an invalid `mountinfo`,
blocked before anything runs), the `endpoints` read (a parse failure raises
before the `with` block), the duplicate-kind conflict check (blocked before
the `with` block), then inside `with self.mounts()` the stale sweep followed
by the per-share loop. The context manager persists the in-memory table
exactly when the body exits without an exception; an exception skips the
`set_state` call and leaves the previously persisted table `p0` in place. -/
def handleEvent (cfg : Option Cfg) (rels : List (Except PyErr Share)) (e : Exec)
    (p0 : Table) : HandlerResult :=
  match cfg with
  | none => ⟨.blockedConfig, [], [], p0⟩
  | some cfg =>
    match endpoints rels with
    | .error _ => ⟨.raised, [], [], p0⟩
    | .ok shares =>
      match firstDuplicate (shares.map Share.fsType) with
      | some fs => ⟨.blockedDuplicate fs, [], [], p0⟩
      | none =>
        match staleLoop e (shares.map Share.fsType) p0 with
        | .error ops => ⟨.raised, ops, [], p0⟩
        | .ok (ops1, t1) =>
          match mountLoop e cfg shares t1 with
          | .raised ops2 => ⟨.raised, ops1 ++ ops2, [], p0⟩
          | .missingCfg fs ops2 t2 => ⟨.blockedMissing fs, ops1 ++ ops2, [t2], t2⟩
          | .done ops2 t2 => ⟨.active, ops1 ++ ops2, [t2], t2⟩

/-- Claim C5. Every invocation either raises, persisting nothing and leaving
the previously persisted table exactly as it was, or returns normally, in
which case the context manager persisted exactly once: the final table. In
particular no table is ever persisted mid-pass, so a pass interrupted by an
error never persists a partially updated table. -/
theorem reconcile_persist_atomic (cfg : Option Cfg) (rels : List (Except PyErr Share))
    (e : Exec) (p0 : Table) :
    ((handleEvent cfg rels e p0).persists = [] ∧ (handleEvent cfg rels e p0).persisted = p0) ∨
    ((handleEvent cfg rels e p0).outcome ≠ .raised ∧
      (handleEvent cfg rels e p0).persists = [(handleEvent cfg rels e p0).persisted]) := by
  cases cfg with
  | none => exact Or.inl ⟨rfl, rfl⟩
  | some c =>
    cases hE : endpoints rels with
    | error err => simp only [handleEvent, hE]; exact Or.inl ⟨by simp, by simp⟩
    | ok shares =>
      cases hD : firstDuplicate (shares.map Share.fsType) with
      | some fs => simp only [handleEvent, hE, hD]; exact Or.inl ⟨by simp, by simp⟩
      | none =>
        cases hS : staleLoop e (shares.map Share.fsType) p0 with
        | error ops => simp only [handleEvent, hE, hD, hS]; exact Or.inl ⟨by simp, by simp⟩
        | ok pr =>
          obtain ⟨ops1, t1⟩ := pr
          cases hM : mountLoop e c shares t1 with
          | raised ops2 =>
            simp only [handleEvent, hE, hD, hS, hM]
            exact Or.inl ⟨by simp, by simp⟩
          | missingCfg fs ops2 t2 =>
            simp only [handleEvent, hE, hD, hS, hM]
            exact Or.inr ⟨by simp, by simp⟩
          | done ops2 t2 =>
            simp only [handleEvent, hE, hD, hS, hM]
            exact Or.inr ⟨by simp, by simp⟩

theorem endpoints_has_error :
    ∀ rels : List (Except PyErr Share), (∃ err, Except.error err ∈ rels) →
      ∃ err, endpoints rels = .error err := by
  intro rels
  induction rels with
  | nil => rintro ⟨err, h⟩; cases h
  | cons r rest ih =>
    rintro ⟨err, h⟩
    cases r with
    | error e => exact ⟨e, rfl⟩
    | ok s =>
      have hmem : Except.error err ∈ rest := by
        rcases List.mem_cons.mp h with h1 | h1
        · cases h1
        · exact h1
      obtain ⟨e, he⟩ := ih ⟨err, hmem⟩
      exact ⟨e, by simp [endpoints, he]⟩

/-- Claim C6, as amended. When the `mountinfo` config is valid and any active
relation's endpoint URI fails to parse, the whole reconciliation pass is
aborted: the error raises out of the handler before the `with` block opens,
no mount or umount is performed for any kind, nothing is persisted, and the
previously persisted table is left unchanged. -/
theorem parse_error_aborts_pass (c : Cfg) (rels : List (Except PyErr Share)) (e : Exec)
    (p0 : Table) (h : ∃ err, Except.error err ∈ rels) :
    handleEvent (some c) rels e p0 = ⟨.raised, [], [], p0⟩ := by
  obtain ⟨err, herr⟩ := endpoints_has_error rels h
  simp only [handleEvent, herr]

/-- Witness for the amended C6 at a concrete input. -/
theorem parse_error_aborts_pass_witness :
    (∃ err, Except.error err ∈
      ([Except.error (PyErr.parseError "invalid list of hosts for endpoint")] :
        List (Except PyErr Share))) ∧
    handleEvent (some []) [Except.error (PyErr.parseError "invalid list of hosts for endpoint")]
        noFail [] = ⟨.raised, [], [], []⟩ :=
  ⟨⟨PyErr.parseError "invalid list of hosts for endpoint", List.mem_singleton.mpr rfl⟩,
    parse_error_aborts_pass [] _ noFail []
      ⟨PyErr.parseError "invalid list of hosts for endpoint", List.mem_singleton.mpr rfl⟩⟩

/-- The config of the C6 counterexample: mount options for the nfs kind. -/
def cexCfg : Cfg := [("nfs", ⟨"/nfs", false, false, true, true⟩)]

/-- The well-parsed nfs share of the C6 counterexample. -/
def cexShare : Share := ⟨"nfs", "nfs://(192.168.1.254:65535)/srv"⟩

/-- The previously persisted table of the C6 counterexample: one stale ceph
record that reconciliation would unmount. -/
def cexP0 : Table :=
  [("ceph", ⟨"/cephfs", true, true, false, false, "ceph://fsuser@(192.168.1.1)/export"⟩)]

/-- The mounts table after a successful pass of the C6 counterexample. -/
def cexT1 : Table :=
  [("nfs", ⟨"/nfs", false, false, true, true, "nfs://(192.168.1.254:65535)/srv"⟩)]

/-- Counterexample to claim C6 as stated. With the failing relation present,
the handler raises, performs zero mount/umount operations and leaves the
persisted table untouched -- so the reconciliation of the other kinds (the
ceph unmount and the nfs mount, which the second conjunct shows the same
pass performs once the failing relation is removed) does NOT take place: a
single descriptor parse failure aborts every kind, not just its own. -/
theorem parse_error_blocks_all_kinds_cex :
    handleEvent (some cexCfg)
        [Except.ok cexShare, Except.error (PyErr.parseError "invalid list of hosts for endpoint")]
        noFail cexP0 = ⟨.raised, [], [], cexP0⟩ ∧
    handleEvent (some cexCfg) [Except.ok cexShare] noFail cexP0 =
      ⟨.active, [.umount "/cephfs", .mount cexShare "/nfs" ["exec", "suid", "nodev", "ro"]],
        [cexT1], cexT1⟩ := by
  decide

theorem endpoints_map_ok (shares : List Share) :
    endpoints (shares.map Except.ok) = .ok shares := by
  induction shares with
  | nil => rfl
  | cons s rest ih => simp [endpoints, ih]

theorem firstDuplicate_eq_none_iff (l : List String) :
    firstDuplicate l = none ↔ l.Nodup := by
  unfold firstDuplicate
  rw [List.find?_eq_none]
  constructor
  · intro h
    rw [List.nodup_iff_count_le_one]
    intro a
    by_cases ha : a ∈ l
    · have := h a ha
      simp only [decide_eq_true_eq] at this
      omega
    · rw [List.count_eq_zero_of_not_mem ha]
      omega
  · intro h x hx
    rw [List.nodup_iff_count_le_one] at h
    have := h x
    simp only [decide_eq_true_eq]
    omega

theorem lookup_setKey_self {α : Type} (k : String) (v : α) :
    ∀ t : List (String × α), lookupKey (setKey t k v) k = some v := by
  intro t
  induction t with
  | nil => simp [setKey, lookupKey]
  | cons kv rest ih =>
    obtain ⟨k', v'⟩ := kv
    by_cases h : k' = k
    · simp [setKey, h, lookupKey]
    · simp [setKey, h, lookupKey, ih]

theorem lookup_setKey_ne {α : Type} (k k' : String) (v : α) (h : k' ≠ k) :
    ∀ t : List (String × α), lookupKey (setKey t k v) k' = lookupKey t k' := by
  have hkk : ¬ k = k' := fun heq => h heq.symm
  intro t
  induction t with
  | nil => simp only [setKey, lookupKey, if_neg hkk]
  | cons kv rest ih =>
    obtain ⟨a, b⟩ := kv
    by_cases ha : a = k
    · subst ha
      simp only [setKey, if_pos rfl, lookupKey, if_neg hkk]
    · simp only [setKey, if_neg ha, lookupKey, ih]

theorem mem_setKey {α : Type} (k : String) (v : α) :
    ∀ (t : List (String × α)) (x : String × α), x ∈ setKey t k v → x ∈ t ∨ x.1 = k := by
  intro t
  induction t with
  | nil =>
    intro x hx
    simp only [setKey, List.mem_singleton] at hx
    subst hx
    exact Or.inr rfl
  | cons kv rest ih =>
    obtain ⟨a, b⟩ := kv
    intro x hx
    by_cases ha : a = k
    · subst ha
      simp only [setKey, if_pos rfl, ite_true, List.mem_cons] at hx
      rcases hx with h1 | h1
      · subst h1
        exact Or.inr rfl
      · exact Or.inl (List.mem_cons_of_mem _ h1)
    · simp only [setKey, if_neg ha, List.mem_cons] at hx
      rcases hx with h1 | h1
      · subst h1
        exact Or.inl (List.mem_cons_self _ _)
      · rcases ih x h1 with h2 | h2
        · exact Or.inl (List.mem_cons_of_mem _ h2)
        · exact Or.inr h2

theorem nodup_keys_setKey {α : Type} (k : String) (v : α) :
    ∀ t : List (String × α), (t.map Prod.fst).Nodup → ((setKey t k v).map Prod.fst).Nodup := by
  intro t
  induction t with
  | nil => intro _; simp [setKey]
  | cons kv rest ih =>
    obtain ⟨a, b⟩ := kv
    intro h
    rw [List.map_cons, List.nodup_cons] at h
    by_cases ha : a = k
    · subst ha
      simp only [setKey, if_pos rfl, ite_true, List.map_cons, List.nodup_cons]
      exact ⟨h.1, h.2⟩
    · simp only [setKey, if_neg ha, List.map_cons, List.nodup_cons]
      refine ⟨?_, ih h.2⟩
      intro hmem
      rw [List.mem_map] at hmem
      obtain ⟨x, hx, hax⟩ := hmem
      rcases mem_setKey k v rest x hx with h1 | h1
      · have h2 : x.1 ∈ rest.map Prod.fst := List.mem_map_of_mem Prod.fst h1
        rw [hax] at h2
        exact h.1 h2
      · exact ha (by rw [← hax, h1])

theorem staleLoop_ok_sublist (e : Exec) (active : List String) :
    ∀ (t : Table) (ops : List MountOp) (t' : Table),
      staleLoop e active t = .ok (ops, t') →
      (t'.map Prod.fst).Sublist (t.map Prod.fst) := by
  intro t
  induction t with
  | nil =>
    intro ops t' h
    simp only [staleLoop, Except.ok.injEq, Prod.mk.injEq] at h
    rw [← h.2]
  | cons kv rest ih =>
    obtain ⟨k, r⟩ := kv
    intro ops t' h
    rw [staleLoop] at h
    by_cases hk : k ∈ active
    · rw [if_pos hk] at h
      rcases hrec : staleLoop e active rest with ops0 | ⟨ops0, t0⟩
      · simp only [hrec] at h
        cases h
      · simp only [hrec, Except.ok.injEq, Prod.mk.injEq] at h
        rw [← h.2]
        exact List.Sublist.cons₂ _ (ih ops0 t0 hrec)
    · rw [if_neg hk] at h
      by_cases hu : e.umountOk r.mountpoint
      · rw [if_pos hu] at h
        rcases hrec : staleLoop e active rest with ops0 | ⟨ops0, t0⟩
        · simp only [hrec] at h
          cases h
        · simp only [hrec, Except.ok.injEq, Prod.mk.injEq] at h
          rw [← h.2]
          exact List.Sublist.cons _ (ih ops0 t0 hrec)
      · rw [if_neg hu] at h
        cases h

/-- The table a loop result carries, when the loop did not raise. -/
def loopTable : LoopRes → Option Table
  | .done _ t => some t
  | .missingCfg _ _ t => some t
  | .raised _ => none

theorem loopTable_consOps (l : List MountOp) (res : LoopRes) :
    loopTable (consOps l res) = loopTable res := by
  cases res <;> rfl

theorem mountLoop_nodup (e : Exec) (cfg : Cfg) :
    ∀ (ss : List Share) (t t2 : Table), loopTable (mountLoop e cfg ss t) = some t2 →
      (t.map Prod.fst).Nodup → (t2.map Prod.fst).Nodup := by
  intro ss
  induction ss with
  | nil =>
    intro t t2 h hn
    simp only [mountLoop, loopTable, Option.some.injEq] at h
    exact h ▸ hn
  | cons s rest ih =>
    intro t t2 h hn
    simp only [mountLoop] at h
    rcases hc : lookupKey cfg s.fsType with _ | o
    · simp only [hc, loopTable, Option.some.injEq] at h
      exact h ▸ hn
    · simp only [hc] at h
      rcases hl : lookupKey t s.fsType with _ | prev
      · simp only [hl] at h
        by_cases hm : e.mountOk s o.mountpoint (mkOptsList o) = true
        · rw [if_pos hm, loopTable_consOps] at h
          exact ih _ t2 h (nodup_keys_setKey _ _ t hn)
        · rw [if_neg hm] at h
          simp [loopTable] at h
      · simp only [hl] at h
        by_cases hpr : prev = mkRecord o s.uri
        · rw [if_pos hpr] at h
          exact ih t t2 h hn
        · rw [if_neg hpr] at h
          by_cases hu : e.umountOk prev.mountpoint = true
          · rw [if_pos hu] at h
            by_cases hm : e.mountOk s o.mountpoint (mkOptsList o) = true
            · rw [if_pos hm, loopTable_consOps] at h
              exact ih _ t2 h (nodup_keys_setKey _ _ t hn)
            · rw [if_neg hm] at h
              simp [loopTable] at h
          · rw [if_neg hu] at h
            simp [loopTable] at h

/-- Claim C7. Starting from a persisted table with at most one record per
filesystem kind, every table the pass persists (and the table persisted after
the pass) again has at most one record per kind -- the table is keyed by
kind, and both the stale sweep and the per-share updates preserve key
uniqueness. And whenever more than one active descriptor shares a filesystem
kind, the handler stops at the conflict check with a blocked status, before
the `with` block: it performs no mount or umount operation and persists
nothing. -/
theorem one_record_per_kind (c : Cfg) (shares : List Share) (e : Exec) (p0 : Table)
    (h0 : (p0.map Prod.fst).Nodup) :
    (((handleEvent (some c) (shares.map Except.ok) e p0).persisted.map Prod.fst).Nodup ∧
      ∀ t ∈ (handleEvent (some c) (shares.map Except.ok) e p0).persists,
        (t.map Prod.fst).Nodup) ∧
    (¬ (shares.map Share.fsType).Nodup →
      (∃ fs, (handleEvent (some c) (shares.map Except.ok) e p0).outcome = .blockedDuplicate fs) ∧
      (handleEvent (some c) (shares.map Except.ok) e p0).ops = [] ∧
      (handleEvent (some c) (shares.map Except.ok) e p0).persists = []) := by
  have hep := endpoints_map_ok shares
  cases hD : firstDuplicate (shares.map Share.fsType) with
  | some fs =>
    simp only [handleEvent, hep, hD]
    refine ⟨⟨h0, ?_⟩, ?_⟩
    · intro t ht
      cases ht
    · intro _
      exact ⟨⟨fs, by simp⟩, by simp, by simp⟩
  | none =>
    have hnd : (shares.map Share.fsType).Nodup := (firstDuplicate_eq_none_iff _).mp hD
    cases hS : staleLoop e (shares.map Share.fsType) p0 with
    | error ops =>
      simp only [handleEvent, hep, hD, hS]
      exact ⟨⟨h0, by intro t ht; cases ht⟩, fun hcon => absurd hnd hcon⟩
    | ok pr =>
      obtain ⟨ops1, t1⟩ := pr
      have ht1 : (t1.map Prod.fst).Nodup :=
        List.Nodup.sublist (staleLoop_ok_sublist e _ p0 ops1 t1 hS) h0
      cases hM : mountLoop e c shares t1 with
      | raised ops2 =>
        simp only [handleEvent, hep, hD, hS, hM]
        exact ⟨⟨h0, by intro t ht; cases ht⟩, fun hcon => absurd hnd hcon⟩
      | missingCfg fs ops2 t2 =>
        have ht2 : (t2.map Prod.fst).Nodup :=
          mountLoop_nodup e c shares t1 t2 (by rw [hM]; rfl) ht1
        simp only [handleEvent, hep, hD, hS, hM]
        refine ⟨⟨ht2, ?_⟩, fun hcon => absurd hnd hcon⟩
        intro t ht
        rw [List.mem_singleton] at ht
        rw [ht]
        exact ht2
      | done ops2 t2 =>
        have ht2 : (t2.map Prod.fst).Nodup :=
          mountLoop_nodup e c shares t1 t2 (by rw [hM]; rfl) ht1
        simp only [handleEvent, hep, hD, hS, hM]
        refine ⟨⟨ht2, ?_⟩, fun hcon => absurd hnd hcon⟩
        intro t ht
        rw [List.mem_singleton] at ht
        rw [ht]
        exact ht2

/-- Witness for C7: two nfs descriptors active at once are flagged as a
conflict with no operation performed and nothing persisted. -/
theorem one_record_per_kind_witness :
    ((([] : Table).map Prod.fst).Nodup ∧
      ¬ (([⟨"nfs", "u1"⟩, ⟨"nfs", "u2"⟩] : List Share).map Share.fsType).Nodup) ∧
    (∃ fs, (handleEvent (some ([] : Cfg))
        (([⟨"nfs", "u1"⟩, ⟨"nfs", "u2"⟩] : List Share).map Except.ok) noFail []).outcome =
          .blockedDuplicate fs) ∧
    (handleEvent (some ([] : Cfg))
        (([⟨"nfs", "u1"⟩, ⟨"nfs", "u2"⟩] : List Share).map Except.ok) noFail []).ops = [] ∧
    (handleEvent (some ([] : Cfg))
        (([⟨"nfs", "u1"⟩, ⟨"nfs", "u2"⟩] : List Share).map Except.ok) noFail []).persists = [] := by
  have h := one_record_per_kind [] [⟨"nfs", "u1"⟩, ⟨"nfs", "u2"⟩] noFail [] (by decide)
  exact ⟨⟨by decide, by decide⟩, (h.2 (by decide)).1, (h.2 (by decide)).2.1, (h.2 (by decide)).2.2⟩

theorem staleLoop_noFail_eq (active : List String) :
    ∀ t : Table,
      staleLoop noFail active t =
        .ok ((t.filter (fun kv => decide (kv.1 ∉ active))).map
              (fun kv => MountOp.umount kv.2.mountpoint),
             t.filter (fun kv => decide (kv.1 ∈ active))) := by
  intro t
  induction t with
  | nil => rfl
  | cons kv rest ih =>
    obtain ⟨k, r⟩ := kv
    by_cases hk : k ∈ active
    · rw [staleLoop, if_pos hk, ih]
      simp [List.filter_cons, hk]
    · rw [staleLoop, if_neg hk]
      rw [show noFail.umountOk r.mountpoint = true from rfl, if_pos rfl, ih]
      simp [List.filter_cons, hk]

theorem mountLoop_noFail_cons (cfg : Cfg) (s : Share) (rest : List Share) (t : Table) :
    mountLoop noFail cfg (s :: rest) t =
      (match lookupKey cfg s.fsType with
       | none => .missingCfg s.fsType [] t
       | some o =>
         match lookupKey t s.fsType with
         | some prev =>
           if prev = mkRecord o s.uri then mountLoop noFail cfg rest t
           else consOps [.umount prev.mountpoint, .mount s o.mountpoint (mkOptsList o)]
                  (mountLoop noFail cfg rest (setKey t s.fsType (mkRecord o s.uri)))
         | none =>
           consOps [.mount s o.mountpoint (mkOptsList o)]
             (mountLoop noFail cfg rest (setKey t s.fsType (mkRecord o s.uri)))) := by
  simp only [mountLoop]
  rcases lookupKey cfg s.fsType with _ | o
  · rfl
  · rcases lookupKey t s.fsType with _ | prev
    · simp [noFail]
    · simp [noFail]

theorem mountLoop_cons_nocfg (e : Exec) (cfg : Cfg) (s : Share) (rest : List Share)
    (t : Table) (hc : lookupKey cfg s.fsType = none) :
    mountLoop e cfg (s :: rest) t = .missingCfg s.fsType [] t := by
  simp only [mountLoop, hc]

theorem mountLoop_noFail_cons_skip (cfg : Cfg) (s : Share) (rest : List Share)
    (t : Table) (o : MountOpts) (hc : lookupKey cfg s.fsType = some o)
    (hl : lookupKey t s.fsType = some (mkRecord o s.uri)) :
    mountLoop noFail cfg (s :: rest) t = mountLoop noFail cfg rest t := by
  simp only [mountLoop, hc, hl]
  simp only [ite_true]

theorem mountLoop_noFail_cons_remount (cfg : Cfg) (s : Share) (rest : List Share)
    (t : Table) (o : MountOpts) (prev : MountRecord)
    (hc : lookupKey cfg s.fsType = some o) (hl : lookupKey t s.fsType = some prev)
    (hpr : ¬ prev = mkRecord o s.uri) :
    mountLoop noFail cfg (s :: rest) t =
      consOps [.umount prev.mountpoint, .mount s o.mountpoint (mkOptsList o)]
        (mountLoop noFail cfg rest (setKey t s.fsType (mkRecord o s.uri))) := by
  simp only [mountLoop, hc, hl]
  rw [if_neg hpr]
  simp [noFail]

theorem mountLoop_noFail_cons_fresh (cfg : Cfg) (s : Share) (rest : List Share)
    (t : Table) (o : MountOpts) (hc : lookupKey cfg s.fsType = some o)
    (hl : lookupKey t s.fsType = none) :
    mountLoop noFail cfg (s :: rest) t =
      consOps [.mount s o.mountpoint (mkOptsList o)]
        (mountLoop noFail cfg rest (setKey t s.fsType (mkRecord o s.uri))) := by
  simp only [mountLoop, hc, hl]
  simp [noFail]

theorem mountLoop_noFail_some (cfg : Cfg) :
    ∀ (ss : List Share) (t : Table), (loopTable (mountLoop noFail cfg ss t)).isSome := by
  intro ss
  induction ss with
  | nil => intro t; rfl
  | cons s rest ih =>
    intro t
    rcases hc : lookupKey cfg s.fsType with _ | o
    · rw [mountLoop_cons_nocfg noFail cfg s rest t hc]
      rfl
    · rcases hl : lookupKey t s.fsType with _ | prev
      · rw [mountLoop_noFail_cons_fresh cfg s rest t o hc hl, loopTable_consOps]
        exact ih _
      · by_cases hpr : prev = mkRecord o s.uri
        · rw [hpr] at hl
          rw [mountLoop_noFail_cons_skip cfg s rest t o hc hl]
          exact ih t
        · rw [mountLoop_noFail_cons_remount cfg s rest t o prev hc hl hpr, loopTable_consOps]
          exact ih _

theorem mountLoop_noFail_mem (cfg : Cfg) :
    ∀ (ss : List Share) (t t2 : Table), loopTable (mountLoop noFail cfg ss t) = some t2 →
      ∀ x ∈ t2, x ∈ t ∨ x.1 ∈ ss.map Share.fsType := by
  intro ss
  induction ss with
  | nil =>
    intro t t2 h x hx
    simp only [mountLoop, loopTable, Option.some.injEq] at h
    exact Or.inl (h ▸ hx)
  | cons s rest ih =>
    intro t t2 h x hx
    rcases hc : lookupKey cfg s.fsType with _ | o
    · rw [mountLoop_cons_nocfg noFail cfg s rest t hc] at h
      simp only [loopTable, Option.some.injEq] at h
      exact Or.inl (h ▸ hx)
    · rcases hl : lookupKey t s.fsType with _ | prev
      · rw [mountLoop_noFail_cons_fresh cfg s rest t o hc hl, loopTable_consOps] at h
        rcases ih _ t2 h x hx with h1 | h1
        · rcases mem_setKey _ _ t x h1 with h2 | h2
          · exact Or.inl h2
          · exact Or.inr (by rw [h2]; exact List.mem_cons_self _ _)
        · exact Or.inr (List.mem_cons_of_mem _ h1)
      · by_cases hpr : prev = mkRecord o s.uri
        · rw [hpr] at hl
          rw [mountLoop_noFail_cons_skip cfg s rest t o hc hl] at h
          rcases ih t t2 h x hx with h1 | h1
          · exact Or.inl h1
          · exact Or.inr (List.mem_cons_of_mem _ h1)
        · rw [mountLoop_noFail_cons_remount cfg s rest t o prev hc hl hpr,
            loopTable_consOps] at h
          rcases ih _ t2 h x hx with h1 | h1
          · rcases mem_setKey _ _ t x h1 with h2 | h2
            · exact Or.inl h2
            · exact Or.inr (by rw [h2]; exact List.mem_cons_self _ _)
          · exact Or.inr (List.mem_cons_of_mem _ h1)

theorem mountLoop_noFail_preserve (cfg : Cfg) :
    ∀ (ss : List Share) (t t2 : Table) (k : String), k ∉ ss.map Share.fsType →
      loopTable (mountLoop noFail cfg ss t) = some t2 →
      lookupKey t2 k = lookupKey t k := by
  intro ss
  induction ss with
  | nil =>
    intro t t2 k _ h
    simp only [mountLoop, loopTable, Option.some.injEq] at h
    rw [← h]
  | cons s rest ih =>
    intro t t2 k hk h
    simp only [List.map_cons, List.mem_cons, not_or] at hk
    rcases hc : lookupKey cfg s.fsType with _ | o
    · rw [mountLoop_cons_nocfg noFail cfg s rest t hc] at h
      simp only [loopTable, Option.some.injEq] at h
      rw [← h]
    · rcases hl : lookupKey t s.fsType with _ | prev
      · rw [mountLoop_noFail_cons_fresh cfg s rest t o hc hl, loopTable_consOps] at h
        rw [ih _ t2 k hk.2 h]
        exact lookup_setKey_ne _ _ _ hk.1 t
      · by_cases hpr : prev = mkRecord o s.uri
        · rw [hpr] at hl
          rw [mountLoop_noFail_cons_skip cfg s rest t o hc hl] at h
          exact ih t t2 k hk.2 h
        · rw [mountLoop_noFail_cons_remount cfg s rest t o prev hc hl hpr,
            loopTable_consOps] at h
          rw [ih _ t2 k hk.2 h]
          exact lookup_setKey_ne _ _ _ hk.1 t

theorem mountLoop_noFail_idem (cfg : Cfg) :
    ∀ ss : List Share, (ss.map Share.fsType).Nodup → ∀ t : Table,
      (∀ ops t2, mountLoop noFail cfg ss t = .done ops t2 →
        mountLoop noFail cfg ss t2 = .done [] t2) ∧
      (∀ fs ops t2, mountLoop noFail cfg ss t = .missingCfg fs ops t2 →
        mountLoop noFail cfg ss t2 = .missingCfg fs [] t2) := by
  intro ss
  induction ss with
  | nil =>
    intro _ t
    constructor
    · intro ops t2 h
      simp only [mountLoop, LoopRes.done.injEq] at h
      rw [← h.2]
      rfl
    · intro fs ops t2 h
      simp only [mountLoop] at h
      exact LoopRes.noConfusion h
  | cons s rest ih =>
    intro hnd t
    have hs : s.fsType ∉ rest.map Share.fsType := by
      rw [List.map_cons, List.nodup_cons] at hnd
      exact hnd.1
    have hnr : (rest.map Share.fsType).Nodup := by
      rw [List.map_cons, List.nodup_cons] at hnd
      exact hnd.2
    constructor
    · intro ops t2 h
      rcases hc : lookupKey cfg s.fsType with _ | o
      · rw [mountLoop_cons_nocfg noFail cfg s rest t hc] at h
        exact LoopRes.noConfusion h
      · rcases hl : lookupKey t s.fsType with _ | prev
        · rw [mountLoop_noFail_cons_fresh cfg s rest t o hc hl] at h
          rcases hM : mountLoop noFail cfg rest (setKey t s.fsType (mkRecord o s.uri)) with
            ⟨ops3, t3⟩ | ⟨fs3, ops3, t3⟩ | ⟨ops3⟩
          · rw [hM] at h
            simp only [consOps, LoopRes.done.injEq] at h
            obtain ⟨h1, h2⟩ := h
            subst h2
            have hl2 : lookupKey t3 s.fsType = some (mkRecord o s.uri) := by
              rw [mountLoop_noFail_preserve cfg rest _ t3 s.fsType hs (by rw [hM]; rfl)]
              exact lookup_setKey_self _ _ t
            rw [mountLoop_noFail_cons_skip cfg s rest t3 o hc hl2]
            exact (ih hnr _).1 ops3 t3 hM
          · rw [hM] at h
            simp only [consOps] at h
            exact LoopRes.noConfusion h
          · rw [hM] at h
            simp only [consOps] at h
            exact LoopRes.noConfusion h
        · by_cases hpr : prev = mkRecord o s.uri
          · rw [hpr] at hl
            rw [mountLoop_noFail_cons_skip cfg s rest t o hc hl] at h
            have hl2 : lookupKey t2 s.fsType = some (mkRecord o s.uri) := by
              rw [mountLoop_noFail_preserve cfg rest t t2 s.fsType hs (by rw [h]; rfl)]
              exact hl
            rw [mountLoop_noFail_cons_skip cfg s rest t2 o hc hl2]
            exact (ih hnr t).1 ops t2 h
          · rw [mountLoop_noFail_cons_remount cfg s rest t o prev hc hl hpr] at h
            rcases hM : mountLoop noFail cfg rest (setKey t s.fsType (mkRecord o s.uri)) with
              ⟨ops3, t3⟩ | ⟨fs3, ops3, t3⟩ | ⟨ops3⟩
            · rw [hM] at h
              simp only [consOps, LoopRes.done.injEq] at h
              obtain ⟨h1, h2⟩ := h
              subst h2
              have hl2 : lookupKey t3 s.fsType = some (mkRecord o s.uri) := by
                rw [mountLoop_noFail_preserve cfg rest _ t3 s.fsType hs (by rw [hM]; rfl)]
                exact lookup_setKey_self _ _ t
              rw [mountLoop_noFail_cons_skip cfg s rest t3 o hc hl2]
              exact (ih hnr _).1 ops3 t3 hM
            · rw [hM] at h
              simp only [consOps] at h
              exact LoopRes.noConfusion h
            · rw [hM] at h
              simp only [consOps] at h
              exact LoopRes.noConfusion h
    · intro fs ops t2 h
      rcases hc : lookupKey cfg s.fsType with _ | o
      · rw [mountLoop_cons_nocfg noFail cfg s rest t hc] at h
        simp only [LoopRes.missingCfg.injEq] at h
        obtain ⟨h1, h2, h3⟩ := h
        subst h1
        subst h3
        exact mountLoop_cons_nocfg noFail cfg s rest _ hc
      · rcases hl : lookupKey t s.fsType with _ | prev
        · rw [mountLoop_noFail_cons_fresh cfg s rest t o hc hl] at h
          rcases hM : mountLoop noFail cfg rest (setKey t s.fsType (mkRecord o s.uri)) with
            ⟨ops3, t3⟩ | ⟨fs3, ops3, t3⟩ | ⟨ops3⟩
          · rw [hM] at h
            simp only [consOps] at h
            exact LoopRes.noConfusion h
          · rw [hM] at h
            simp only [consOps, LoopRes.missingCfg.injEq] at h
            obtain ⟨h1, h2, h3⟩ := h
            subst h1
            subst h3
            have hl2 : lookupKey t3 s.fsType = some (mkRecord o s.uri) := by
              rw [mountLoop_noFail_preserve cfg rest _ t3 s.fsType hs (by rw [hM]; rfl)]
              exact lookup_setKey_self _ _ t
            rw [mountLoop_noFail_cons_skip cfg s rest t3 o hc hl2]
            exact (ih hnr _).2 fs3 ops3 t3 hM
          · rw [hM] at h
            simp only [consOps] at h
            exact LoopRes.noConfusion h
        · by_cases hpr : prev = mkRecord o s.uri
          · rw [hpr] at hl
            rw [mountLoop_noFail_cons_skip cfg s rest t o hc hl] at h
            have hl2 : lookupKey t2 s.fsType = some (mkRecord o s.uri) := by
              rw [mountLoop_noFail_preserve cfg rest t t2 s.fsType hs (by rw [h]; rfl)]
              exact hl
            rw [mountLoop_noFail_cons_skip cfg s rest t2 o hc hl2]
            exact (ih hnr t).2 fs ops t2 h
          · rw [mountLoop_noFail_cons_remount cfg s rest t o prev hc hl hpr] at h
            rcases hM : mountLoop noFail cfg rest (setKey t s.fsType (mkRecord o s.uri)) with
              ⟨ops3, t3⟩ | ⟨fs3, ops3, t3⟩ | ⟨ops3⟩
            · rw [hM] at h
              simp only [consOps] at h
              exact LoopRes.noConfusion h
            · rw [hM] at h
              simp only [consOps, LoopRes.missingCfg.injEq] at h
              obtain ⟨h1, h2, h3⟩ := h
              subst h1
              subst h3
              have hl2 : lookupKey t3 s.fsType = some (mkRecord o s.uri) := by
                rw [mountLoop_noFail_preserve cfg rest _ t3 s.fsType hs (by rw [hM]; rfl)]
                exact lookup_setKey_self _ _ t
              rw [mountLoop_noFail_cons_skip cfg s rest t3 o hc hl2]
              exact (ih hnr _).2 fs3 ops3 t3 hM
            · rw [hM] at h
              simp only [consOps] at h
              exact LoopRes.noConfusion h

/-- Claim C8. With the OS-level mount and umount effects succeeding, invoking
the reconciliation handler twice in a row with the same validated config and
the same active descriptors performs no mount and no umount during the second
invocation, and the persisted mounts table after the second invocation equals
the one after the first: after a pass, every surviving record's kind is
active and every active share's stored record matches its freshly rebuilt
options, so the second pass's stale sweep removes nothing and its per-share
loop skips every share. -/
theorem reconcile_idempotent (c : Cfg) (shares : List Share) (p0 : Table) :
    (handleEvent (some c) (shares.map Except.ok) noFail
        (handleEvent (some c) (shares.map Except.ok) noFail p0).persisted).ops = [] ∧
    (handleEvent (some c) (shares.map Except.ok) noFail
        (handleEvent (some c) (shares.map Except.ok) noFail p0).persisted).persisted =
      (handleEvent (some c) (shares.map Except.ok) noFail p0).persisted := by
  have hep := endpoints_map_ok shares
  cases hD : firstDuplicate (shares.map Share.fsType) with
  | some fs =>
    simp only [handleEvent, hep, hD]
    exact ⟨by simp, by simp⟩
  | none =>
    have hnd := (firstDuplicate_eq_none_iff _).mp hD
    have hsl := staleLoop_noFail_eq (shares.map Share.fsType) p0
    cases hM : mountLoop noFail c shares
        (p0.filter (fun kv => decide (kv.1 ∈ shares.map Share.fsType))) with
    | raised ops2 =>
      have hsome := mountLoop_noFail_some c shares
        (p0.filter (fun kv => decide (kv.1 ∈ shares.map Share.fsType)))
      rw [hM] at hsome
      simp [loopTable] at hsome
    | done ops2 t2 =>
      have hTbl : loopTable (mountLoop noFail c shares
          (p0.filter (fun kv => decide (kv.1 ∈ shares.map Share.fsType)))) = some t2 := by
        rw [hM]; rfl
      have hmem : ∀ kv ∈ t2, kv.1 ∈ shares.map Share.fsType := by
        intro kv hkv
        rcases mountLoop_noFail_mem c shares _ t2 hTbl kv hkv with h1 | h1
        · have h2 := List.of_mem_filter h1
          simpa using h2
        · exact h1
      have e2 : t2.filter (fun kv => decide (kv.1 ∈ shares.map Share.fsType)) = t2 :=
        List.filter_eq_self.mpr (fun kv hkv => by simpa using hmem kv hkv)
      have e1 : t2.filter (fun kv => decide (kv.1 ∉ shares.map Share.fsType)) = [] :=
        List.filter_eq_nil_iff.mpr (fun kv hkv => by simpa using hmem kv hkv)
      have hsl2 : staleLoop noFail (shares.map Share.fsType) t2 = .ok ([], t2) := by
        rw [staleLoop_noFail_eq, e1, e2]
        rfl
      have hid := (mountLoop_noFail_idem c shares hnd _).1 ops2 t2 hM
      simp only [handleEvent, hep, hD, hsl, hM, hsl2, hid]
      exact ⟨by simp, by simp⟩
    | missingCfg fs ops2 t2 =>
      have hTbl : loopTable (mountLoop noFail c shares
          (p0.filter (fun kv => decide (kv.1 ∈ shares.map Share.fsType)))) = some t2 := by
        rw [hM]; rfl
      have hmem : ∀ kv ∈ t2, kv.1 ∈ shares.map Share.fsType := by
        intro kv hkv
        rcases mountLoop_noFail_mem c shares _ t2 hTbl kv hkv with h1 | h1
        · have h2 := List.of_mem_filter h1
          simpa using h2
        · exact h1
      have e2 : t2.filter (fun kv => decide (kv.1 ∈ shares.map Share.fsType)) = t2 :=
        List.filter_eq_self.mpr (fun kv hkv => by simpa using hmem kv hkv)
      have e1 : t2.filter (fun kv => decide (kv.1 ∉ shares.map Share.fsType)) = [] :=
        List.filter_eq_nil_iff.mpr (fun kv hkv => by simpa using hmem kv hkv)
      have hsl2 : staleLoop noFail (shares.map Share.fsType) t2 = .ok ([], t2) := by
        rw [staleLoop_noFail_eq, e1, e2]
        rfl
      have hid := (mountLoop_noFail_idem c shares hnd _).2 fs ops2 t2 hM
      simp only [handleEvent, hep, hD, hsl, hM, hsl2, hid]
      exact ⟨by simp, by simp⟩
